import Mathlib

/-!
Verification of the crop-region pipeline (`src/main.py`, class `AWSImageRecognition`).

Shallow embedding conventions:
* Python floats carrying normalized coordinates and shifts are modelled as `ℚ`.
* The `float('inf')` / `float('-inf')` sentinels used by
  `detect_labels_and_coordinates` are modelled by `⊤ : WithTop ℚ` and
  `⊥ : WithBot ℚ`; `min`/`max` on those types agree with IEEE `min`/`max`
  against infinities on finite operands.
* Python `int(x)` (truncation toward zero) is `intTrunc`.
* Python's `OverflowError` raised by `int(float('inf'))` is modelled by the
  `Except.error` branch of `process`.
* The nested loop over `response['Labels']` / `label['Instances']` is modelled
  as a fold over the flattened list of bounding boxes.
-/

/-- A detected bounding box in normalized coordinates, as produced by the
detector (`box['Left']`, `box['Top']`, `box['Width']`, `box['Height']`). -/
structure BoundingBox where
  left : ℚ
  top : ℚ
  width : ℚ
  height : ℚ
deriving DecidableEq, Repr

/-- The crop rectangle passed to `img.crop((left, top, right, bottom))`.
Coordinates are rational because the shifts may be fractional. -/
structure CropRect where
  left : ℚ
  top : ℚ
  right : ℚ
  bottom : ℚ
deriving DecidableEq, Repr

/-- `AWSImageRecognition.RATIO = (3, 2)`. -/
def ratio : ℤ × ℤ := (3, 2)

/-- Python `int(q)`: truncation toward zero. -/
def intTrunc (q : ℚ) : ℤ :=
  if q < 0 then -⌊-q⌋ else ⌊q⌋

/-- The loop body of `detect_labels_and_coordinates`: grow the envelope by one
box (lines 70-77 of `src/main.py`). -/
def envStep (acc : (WithTop ℚ × WithTop ℚ) × (WithBot ℚ × WithBot ℚ))
    (box : BoundingBox) : (WithTop ℚ × WithTop ℚ) × (WithBot ℚ × WithBot ℚ) :=
  let l := box.left
  let t := box.top
  let r := box.left + box.width
  let b := box.top + box.height
  ((min acc.1.1 ↑l, min acc.1.2 ↑t), (max acc.2.1 ↑r, max acc.2.2 ↑b))

/-- `detect_labels_and_coordinates` (lines 62-79): fold the envelope update over
all detected boxes, starting from the infinite sentinels. -/
def detect_labels_and_coordinates (boxes : List BoundingBox) :
    (WithTop ℚ × WithTop ℚ) × (WithBot ℚ × WithBot ℚ) :=
  boxes.foldl envStep ((⊤, ⊤), (⊥, ⊥))

/-- `_calculate_shifts` (lines 38-47). -/
def calculate_shifts (width height : ℤ) : ℚ × ℚ :=
  if width < height then
    let target_width : ℤ := ⌊(height : ℚ) / (ratio.1 : ℚ) * (ratio.2 : ℚ)⌋
    (((target_width : ℚ) - (width : ℚ)) / 2, 0)
  else if height < width then
    let target_height : ℤ := ⌊(width : ℚ) / (ratio.1 : ℚ) * (ratio.2 : ℚ)⌋
    (0, ((target_height : ℚ) - (height : ℚ)) / 2)
  else
    (0, 0)

/-- `get_image_dimensions` (lines 49-60) on finite envelope coordinates:
convert to pixels with `int(...)` and return `(area_width, area_height)`. -/
def get_image_dimensions (w h : ℕ) (tl br : ℚ × ℚ) : ℤ × ℤ :=
  (intTrunc (br.1 * w) - intTrunc (tl.1 * w),
   intTrunc (br.2 * h) - intTrunc (tl.2 * h))

/-- `new_width = right - left + shift_horizontal * 2` (line 89). -/
def crop_new_width (w : ℕ) (tl br : ℚ × ℚ) (sh : ℚ) : ℚ :=
  ((intTrunc (br.1 * w) - intTrunc (tl.1 * w) : ℤ) : ℚ) + sh * 2

/-- `new_height = bottom - top + shift_vertical * 2` (line 90). -/
def crop_new_height (h : ℕ) (tl br : ℚ × ℚ) (sv : ℚ) : ℚ :=
  ((intTrunc (br.2 * h) - intTrunc (tl.2 * h) : ℤ) : ℚ) + sv * 2

/-- `crop_image` (lines 81-99): pixel conversion, padded size, and the
clamp-then-rederive of the rectangle handed to `img.crop`. -/
def crop_image (w h : ℕ) (tl br : ℚ × ℚ) (sh sv : ℚ) : CropRect :=
  let l := intTrunc (tl.1 * w)
  let t := intTrunc (tl.2 * h)
  let nw := crop_new_width w tl br sh
  let nh := crop_new_height h tl br sv
  let left := max 0 ((l : ℚ) - sh)
  let right := min (w : ℚ) (left + nw)
  let top := max 0 ((t : ℚ) - sv)
  let bottom := min (h : ℚ) (top + nh)
  ⟨left, top, right, bottom⟩

/-- View a `WithTop ℚ` as an `Option ℚ` (`⊤` is `none`). -/
def unTop (x : WithTop ℚ) : Option ℚ := x

/-- View a `WithBot ℚ` as an `Option ℚ` (`⊥` is `none`). -/
def unBot (x : WithBot ℚ) : Option ℚ := x

/-- `process` (lines 26-36): detect, convert the envelope to pixels, compute
shifts, crop, save.  The Python code performs no emptiness check: if the
envelope still holds an infinite sentinel, the first `int(...)` conversion in
`get_image_dimensions` raises `OverflowError`, modelled by the error branch.
A successful run returns the rectangle that is cropped and saved. -/
def process (boxes : List BoundingBox) (w h : ℕ) : Except String CropRect :=
  let env := detect_labels_and_coordinates boxes
  match unTop env.1.1, unTop env.1.2, unBot env.2.1, unBot env.2.2 with
  | some x0, some y0, some x1, some y1 =>
    let d := get_image_dimensions w h (x0, y0) (x1, y1)
    let s := calculate_shifts d.1 d.2
    Except.ok (crop_image w h (x0, y0) (x1, y1) s.1 s.2)
  | _, _, _, _ =>
    Except.error "OverflowError: cannot convert float infinity to integer"

/-! Evaluation helpers for concrete rational floors and truncations. -/

lemma floor_eval {q : ℚ} {z : ℤ} (h1 : (z : ℚ) ≤ q) (h2 : q < z + 1) :
    (⌊q⌋ : ℤ) = z :=
  Int.floor_eq_iff.mpr ⟨h1, h2⟩

lemma intTrunc_of_nonneg {q : ℚ} (h : 0 ≤ q) : intTrunc q = ⌊q⌋ := by
  simp [intTrunc, not_lt.mpr h]

lemma intTrunc_eval {q : ℚ} {z : ℤ} (h0 : 0 ≤ q) (h1 : (z : ℚ) ≤ q)
    (h2 : q < z + 1) : intTrunc q = z := by
  rw [intTrunc_of_nonneg h0]; exact floor_eval h1 h2

@[simp] lemma unTop_coe (q : ℚ) : unTop ↑q = some q := rfl

@[simp] lemma unBot_coe (q : ℚ) : unBot ↑q = some q := rfl

/-- The ratio expression `height / RATIO[0] * RATIO[1]` of the code equals the
`height * rh / rw` formula of the spec, in exact arithmetic. -/
lemma ratio_expr_eq (x : ℚ) : x / (ratio.1 : ℚ) * (ratio.2 : ℚ) = x * 2 / 3 := by
  rw [ratio]
  push_cast
  ring

/-- Claim C3: for positive integers with `width < height` and ratio `(3, 2)`,
`_calculate_shifts` returns `shift_horizontal = (floor(height * 2 / 3) - width) / 2`
and `shift_vertical = 0`; symmetrically for `width > height` it returns
`shift_vertical = (floor(width * 2 / 3) - height) / 2` and `shift_horizontal = 0`.
In particular (see the witness) `calculate_shifts 100 200 = (16.5, 0)`. -/
theorem C3_shift_formula (w h : ℤ) (hw : 0 < w) (hh : 0 < h) :
    (w < h → calculate_shifts w h =
      ((((⌊(h : ℚ) * 2 / 3⌋ : ℤ) : ℚ) - (w : ℚ)) / 2, 0)) ∧
    (h < w → calculate_shifts w h =
      (0, (((⌊(w : ℚ) * 2 / 3⌋ : ℤ) : ℚ) - (h : ℚ)) / 2)) := by
  constructor
  · intro hlt
    simp only [calculate_shifts, hlt, if_true, ratio_expr_eq]
  · intro hlt
    have hnl : ¬ w < h := not_lt.mpr hlt.le
    simp only [calculate_shifts, hnl, if_false, hlt, if_true, ratio_expr_eq]

/-- Witness for C3 at `width = 100`, `height = 200`:
the returned shift is `(33/2, 0) = (16.5, 0)`. -/
theorem C3_shift_formula_witness :
    (0 : ℤ) < 100 ∧ (0 : ℤ) < 200 ∧ (100 : ℤ) < 200 ∧
      calculate_shifts 100 200 = (33 / 2, 0) := by
  refine ⟨by norm_num, by norm_num, by norm_num, ?_⟩
  have h := (C3_shift_formula 100 200 (by norm_num) (by norm_num)).1 (by norm_num)
  rw [h]
  norm_num

/-- Claim C7: for positive integers, at most one component of the shift pair is
non-zero, and when `width = height` both are zero. -/
theorem C7_at_most_one_shift (w h : ℤ) (hw : 0 < w) (hh : 0 < h) :
    ((calculate_shifts w h).1 = 0 ∨ (calculate_shifts w h).2 = 0) ∧
    (w = h → calculate_shifts w h = (0, 0)) := by
  constructor
  · rcases lt_trichotomy w h with hlt | heq | hgt
    · right
      simp [calculate_shifts, hlt]
    · left
      simp [calculate_shifts, heq]
    · left
      have hnl : ¬ w < h := not_lt.mpr hgt.le
      simp [calculate_shifts, hnl, hgt]
  · intro he
    subst he
    simp [calculate_shifts]

/-- Witness for C7 at `width = 5`, `height = 5`. -/
theorem C7_at_most_one_shift_witness :
    (0 : ℤ) < 5 ∧ (((calculate_shifts 5 5).1 = 0 ∨ (calculate_shifts 5 5).2 = 0) ∧
      ((5 : ℤ) = 5 → calculate_shifts 5 5 = (0, 0))) :=
  ⟨by norm_num, C7_at_most_one_shift 5 5 (by norm_num) (by norm_num)⟩

/-- Counterexample to claim C8 as stated: at `width = 7`, `height = 10` (both
positive), `_calculate_shifts` returns `shift_horizontal = -1/2 < 0`, because
`target_width = floor(10 * 2 / 3) = 6` is smaller than the width `7`. -/
theorem C8_counterexample :
    (0 : ℤ) < 7 ∧ (0 : ℤ) < 10 ∧ (calculate_shifts 7 10).1 < 0 := by
  refine ⟨by norm_num, by norm_num, ?_⟩
  rw [calculate_shifts]
  norm_num [ratio]

/-- Claim C8 (amended): for positive integers `width`, `height`, both shift
components are non-negative provided that three times the smaller dimension is
at most twice the larger one (so that the computed target dimension is at least
the actual one); without that proviso the shifted component can be negative. -/
theorem C8_amended_shift_nonneg (w h : ℤ) (hw : 0 < w) (hh : 0 < h)
    (hwh : w < h → 3 * w ≤ 2 * h) (hhw : h < w → 3 * h ≤ 2 * w) :
    0 ≤ (calculate_shifts w h).1 ∧ 0 ≤ (calculate_shifts w h).2 := by
  rcases lt_trichotomy w h with hlt | heq | hgt
  · have key : (w : ℤ) ≤ ⌊(h : ℚ) / (ratio.1 : ℚ) * (ratio.2 : ℚ)⌋ := by
      rw [ratio_expr_eq]
      apply Int.le_floor.mpr
      have h3 : (3 : ℚ) * w ≤ 2 * h := by exact_mod_cast hwh hlt
      rw [le_div_iff (by norm_num : (0:ℚ) < 3)]
      linarith
    have keyQ : (w : ℚ) ≤ ((⌊(h : ℚ) / (ratio.1 : ℚ) * (ratio.2 : ℚ)⌋ : ℤ) : ℚ) := by
      exact_mod_cast key
    constructor
    · simp only [calculate_shifts, hlt, if_true]
      have : (0 : ℚ) ≤ ((⌊(h : ℚ) / (ratio.1 : ℚ) * (ratio.2 : ℚ)⌋ : ℤ) : ℚ) - w := by
        linarith
      positivity
    · simp [calculate_shifts, hlt]
  · subst heq
    simp [calculate_shifts]
  · have key : (h : ℤ) ≤ ⌊(w : ℚ) / (ratio.1 : ℚ) * (ratio.2 : ℚ)⌋ := by
      rw [ratio_expr_eq]
      apply Int.le_floor.mpr
      have h3 : (3 : ℚ) * h ≤ 2 * w := by exact_mod_cast hhw hgt
      rw [le_div_iff (by norm_num : (0:ℚ) < 3)]
      linarith
    have keyQ : (h : ℚ) ≤ ((⌊(w : ℚ) / (ratio.1 : ℚ) * (ratio.2 : ℚ)⌋ : ℤ) : ℚ) := by
      exact_mod_cast key
    have hnl : ¬ w < h := not_lt.mpr hgt.le
    constructor
    · simp [calculate_shifts, hnl, hgt]
    · simp only [calculate_shifts, hnl, if_false, hgt, if_true]
      have : (0 : ℚ) ≤ ((⌊(w : ℚ) / (ratio.1 : ℚ) * (ratio.2 : ℚ)⌋ : ℤ) : ℚ) - h := by
        linarith
      positivity

/-- Witness for the amended C8 at `width = 100`, `height = 200`. -/
theorem C8_amended_shift_nonneg_witness :
    (3 * (100 : ℤ) ≤ 2 * 200) ∧
      (0 ≤ (calculate_shifts 100 200).1 ∧ 0 ≤ (calculate_shifts 100 200).2) :=
  ⟨by norm_num,
    C8_amended_shift_nonneg 100 200 (by norm_num) (by norm_num)
      (fun _ => by norm_num) (fun hc => absurd hc (by norm_num))⟩

/-! Projections of the rectangle computed by `crop_image`. -/

lemma crop_image_left (W H : ℕ) (tl br : ℚ × ℚ) (sh sv : ℚ) :
    (crop_image W H tl br sh sv).left =
      max 0 ((intTrunc (tl.1 * W) : ℚ) - sh) := by
  simp [crop_image]

lemma crop_image_right (W H : ℕ) (tl br : ℚ × ℚ) (sh sv : ℚ) :
    (crop_image W H tl br sh sv).right =
      min (W : ℚ) (max 0 ((intTrunc (tl.1 * W) : ℚ) - sh) +
        crop_new_width W tl br sh) := by
  simp [crop_image]

lemma crop_image_top (W H : ℕ) (tl br : ℚ × ℚ) (sh sv : ℚ) :
    (crop_image W H tl br sh sv).top =
      max 0 ((intTrunc (tl.2 * H) : ℚ) - sv) := by
  simp [crop_image]

lemma crop_image_bottom (W H : ℕ) (tl br : ℚ × ℚ) (sh sv : ℚ) :
    (crop_image W H tl br sh sv).bottom =
      min (H : ℚ) (max 0 ((intTrunc (tl.2 * H) : ℚ) - sv) +
        crop_new_height H tl br sv) := by
  simp [crop_image]

/-- Claim C4: the cropper re-derives `left = max(0, left - shift_h)` and
`right = min(image_width, left + new_width)` from the already-clamped `left`
(symmetrically for `top`/`bottom`); consequently, when the left edge clamps to
zero, the resulting crop width is exactly `min(new_width, image_width)`. -/
theorem C4_clamp_rederive (W H : ℕ) (tl br : ℚ × ℚ) (sh sv : ℚ)
    (hclamp : (intTrunc (tl.1 * W) : ℚ) - sh ≤ 0) :
    (crop_image W H tl br sh sv).left =
      max 0 ((intTrunc (tl.1 * W) : ℚ) - sh) ∧
    (crop_image W H tl br sh sv).right =
      min (W : ℚ) ((crop_image W H tl br sh sv).left + crop_new_width W tl br sh) ∧
    (crop_image W H tl br sh sv).top =
      max 0 ((intTrunc (tl.2 * H) : ℚ) - sv) ∧
    (crop_image W H tl br sh sv).bottom =
      min (H : ℚ) ((crop_image W H tl br sh sv).top + crop_new_height H tl br sv) ∧
    (crop_image W H tl br sh sv).right - (crop_image W H tl br sh sv).left =
      min (crop_new_width W tl br sh) (W : ℚ) := by
  have hmax0 : max 0 ((intTrunc (tl.1 * W) : ℚ) - sh) = 0 := max_eq_left hclamp
  refine ⟨crop_image_left W H tl br sh sv, ?_, crop_image_top W H tl br sh sv,
    ?_, ?_⟩
  · rw [crop_image_right, crop_image_left]
  · rw [crop_image_bottom, crop_image_top]
  · rw [crop_image_right, crop_image_left, hmax0, zero_add, sub_zero, min_comm]

/-- Witness for C4: image 100×100, envelope starting at the left edge with
shift 8; the crop width is `min(new_width, 100)`. -/
theorem C4_clamp_rederive_witness :
    (intTrunc ((0 : ℚ) * 100) : ℚ) - 8 ≤ 0 ∧
      (crop_image 100 100 (0, 0) (1/2, 1) 8 0).right -
        (crop_image 100 100 (0, 0) (1/2, 1) 8 0).left =
      min (crop_new_width 100 (0, 0) (1/2, 1) 8) (100 : ℚ) := by
  have hclamp : (intTrunc ((0 : ℚ) * 100) : ℚ) - 8 ≤ 0 := by
    norm_num [intTrunc]
  exact ⟨hclamp,
    (C4_clamp_rederive 100 100 (0, 0) (1/2, 1) 8 0 hclamp).2.2.2.2⟩

/-- One axis of the clamp-then-rederive computation stays inside `[0, D]`. -/
lemma clamp_axis {D X NW : ℚ} (hD : 0 ≤ D) (hX : X ≤ D) (hNW : 0 ≤ NW) :
    0 ≤ max 0 X ∧ max 0 X ≤ min D (max 0 X + NW) ∧ min D (max 0 X + NW) ≤ D :=
  ⟨le_max_left 0 X, le_min (max_le hD hX) (le_add_of_nonneg_right hNW),
    min_le_left D _⟩

lemma intTrunc_nonneg {q : ℚ} (h : 0 ≤ q) : 0 ≤ intTrunc q := by
  rw [intTrunc_of_nonneg h]
  exact Int.floor_nonneg.mpr h

lemma intTrunc_le_self {q : ℚ} (h : 0 ≤ q) : (intTrunc q : ℚ) ≤ q := by
  rw [intTrunc_of_nonneg h]
  exact Int.floor_le q

lemma intTrunc_mono {a b : ℚ} (h0 : 0 ≤ a) (hab : a ≤ b) :
    intTrunc a ≤ intTrunc b := by
  rw [intTrunc_of_nonneg h0, intTrunc_of_nonneg (h0.trans hab)]
  exact Int.floor_le_floor hab

/-- Sufficient per-axis facts for the crop-bounds invariant. -/
lemma crop_bounds_of (W H : ℕ) (tl br : ℚ × ℚ) (sh sv : ℚ)
    (hXW : (intTrunc (tl.1 * W) : ℚ) - sh ≤ W)
    (hNW : 0 ≤ crop_new_width W tl br sh)
    (hYH : (intTrunc (tl.2 * H) : ℚ) - sv ≤ H)
    (hNH : 0 ≤ crop_new_height H tl br sv) :
    0 ≤ (crop_image W H tl br sh sv).left ∧
    (crop_image W H tl br sh sv).left ≤ (crop_image W H tl br sh sv).right ∧
    (crop_image W H tl br sh sv).right ≤ W ∧
    0 ≤ (crop_image W H tl br sh sv).top ∧
    (crop_image W H tl br sh sv).top ≤ (crop_image W H tl br sh sv).bottom ∧
    (crop_image W H tl br sh sv).bottom ≤ H := by
  obtain ⟨ha1, ha2, ha3⟩ :=
    clamp_axis (Nat.cast_nonneg W) hXW hNW
  obtain ⟨hb1, hb2, hb3⟩ :=
    clamp_axis (Nat.cast_nonneg H) hYH hNH
  rw [crop_image_left, crop_image_right, crop_image_top, crop_image_bottom]
  exact ⟨ha1, ha2, ha3, hb1, hb2, hb3⟩

/-- Claim C2 evaluated on the code at the failing input (an empty detection
list): `process` performs no emptiness check.  The envelope keeps its infinite
sentinel value, which flows straight into the `int(...)` pixel conversion of
`get_image_dimensions`; that conversion is where the run dies, with an
`OverflowError`, not with a "no detections found" error raised beforehand. -/
theorem C2_code_no_empty_check :
    detect_labels_and_coordinates [] = ((⊤, ⊤), (⊥, ⊥)) ∧
    process [] 100 100 =
      Except.error "OverflowError: cannot convert float infinity to integer" :=
  ⟨rfl, rfl⟩

/-- Claim C6 evaluated on the code at a failing input: a single degenerate
bounding box `{left: 0.5, top: 0.5, width: 0, height: 0}` on a 100×100 image
yields the crop rectangle `(50, 50, 50, 50)` with `right ≤ left` and
`bottom ≤ top`, yet `process` reports no error: it returns the rectangle for
cropping and saving (`Except.ok`). -/
theorem C6_code_saves_degenerate_crop :
    ∃ r : CropRect, process [⟨1/2, 1/2, 0, 0⟩] 100 100 = Except.ok r ∧
      r.right ≤ r.left ∧ r.bottom ≤ r.top := by
  refine ⟨⟨50, 50, 50, 50⟩, ?_, le_refl _, le_refl _⟩
  have h50 : intTrunc (50 : ℚ) = 50 :=
    intTrunc_eval (by norm_num) (by norm_num) (by norm_num)
  have hd : get_image_dimensions 100 100 (1/2, 1/2) (1/2, 1/2) = (0, 0) := by
    simp [get_image_dimensions]
  have hs : calculate_shifts 0 0 = (0, 0) := by simp [calculate_shifts]
  have hc : crop_image 100 100 (1/2, 1/2) (1/2, 1/2) 0 0 = ⟨50, 50, 50, 50⟩ := by
    rw [crop_image, crop_new_width, crop_new_height]
    norm_num [h50, max_def, min_def]
  rw [process]
  simp only [detect_labels_and_coordinates, List.foldl, envStep, min_top_left,
    max_bot_left, add_zero, unTop_coe, unBot_coe]
  rw [hd]
  norm_num [hs, hc]

/-! Folding `min` (resp. `max`) from the infinite sentinel computes the list
minimum (resp. maximum). -/

lemma foldl_min_coe (a : ℚ) (l : List ℚ) :
    ∃ m : ℚ, l.foldl (fun (acc : WithTop ℚ) (v : ℚ) => min acc ↑v) ↑a = ↑m ∧
      (m = a ∨ m ∈ l) ∧ m ≤ a ∧ ∀ v ∈ l, m ≤ v := by
  induction l generalizing a with
  | nil => exact ⟨a, rfl, Or.inl rfl, le_refl a, by simp⟩
  | cons v vs ih =>
    obtain ⟨m, hm, hmem, hle, hall⟩ := ih (min a v)
    refine ⟨m, ?_, ?_, hle.trans (min_le_left a v), ?_⟩
    · rw [List.foldl_cons, ← WithTop.coe_min, hm]
    · rcases hmem with h | h
      · rcases min_choice a v with he | he
        · exact Or.inl (h.trans he)
        · refine Or.inr ?_
          rw [h, he]
          exact List.mem_cons_self v vs
      · exact Or.inr (List.mem_cons_of_mem v h)
    · intro x hx
      rcases List.mem_cons.mp hx with hx | hx
      · rw [hx]
        exact hle.trans (min_le_right a v)
      · exact hall x hx

lemma foldl_max_coe (a : ℚ) (l : List ℚ) :
    ∃ m : ℚ, l.foldl (fun (acc : WithBot ℚ) (v : ℚ) => max acc ↑v) ↑a = ↑m ∧
      (m = a ∨ m ∈ l) ∧ a ≤ m ∧ ∀ v ∈ l, v ≤ m := by
  induction l generalizing a with
  | nil => exact ⟨a, rfl, Or.inl rfl, le_refl a, by simp⟩
  | cons v vs ih =>
    obtain ⟨m, hm, hmem, hle, hall⟩ := ih (max a v)
    refine ⟨m, ?_, ?_, (le_max_left a v).trans hle, ?_⟩
    · rw [List.foldl_cons, ← WithBot.coe_max, hm]
    · rcases hmem with h | h
      · rcases max_choice a v with he | he
        · exact Or.inl (h.trans he)
        · refine Or.inr ?_
          rw [h, he]
          exact List.mem_cons_self v vs
      · exact Or.inr (List.mem_cons_of_mem v h)
    · intro x hx
      rcases List.mem_cons.mp hx with hx | hx
      · rw [hx]
        exact (le_max_right a v).trans hle
      · exact hall x hx

lemma foldl_min_from_top (x : ℚ) (xs : List ℚ) :
    ∃ m : ℚ, (x :: xs).foldl (fun (acc : WithTop ℚ) (v : ℚ) => min acc ↑v) ⊤ = ↑m ∧
      m ∈ x :: xs ∧ ∀ v ∈ x :: xs, m ≤ v := by
  obtain ⟨m, hm, hmem, hle, hall⟩ := foldl_min_coe x xs
  refine ⟨m, ?_, ?_, ?_⟩
  · rw [List.foldl_cons, min_top_left, hm]
  · rcases hmem with h | h
    · rw [h]
      exact List.mem_cons_self x xs
    · exact List.mem_cons_of_mem x h
  · intro v hv
    rcases List.mem_cons.mp hv with hv | hv
    · rw [hv]
      exact hle
    · exact hall v hv

lemma foldl_max_from_bot (x : ℚ) (xs : List ℚ) :
    ∃ m : ℚ, (x :: xs).foldl (fun (acc : WithBot ℚ) (v : ℚ) => max acc ↑v) ⊥ = ↑m ∧
      m ∈ x :: xs ∧ ∀ v ∈ x :: xs, v ≤ m := by
  obtain ⟨m, hm, hmem, hle, hall⟩ := foldl_max_coe x xs
  refine ⟨m, ?_, ?_, ?_⟩
  · rw [List.foldl_cons, max_bot_left, hm]
  · rcases hmem with h | h
    · rw [h]
      exact List.mem_cons_self x xs
    · exact List.mem_cons_of_mem x h
  · intro v hv
    rcases List.mem_cons.mp hv with hv | hv
    · rw [hv]
      exact hle
    · exact hall v hv

/-! Each component of the envelope fold is the fold of the corresponding
per-box quantity. -/

lemma envFold_fst_fst (boxes : List BoundingBox)
    (init : (WithTop ℚ × WithTop ℚ) × (WithBot ℚ × WithBot ℚ)) :
    (boxes.foldl envStep init).1.1 =
      (boxes.map BoundingBox.left).foldl (fun (acc : WithTop ℚ) (v : ℚ) => min acc ↑v) init.1.1 := by
  induction boxes generalizing init with
  | nil => rfl
  | cons b bs ih => simp [List.foldl, envStep, ih]

lemma envFold_fst_snd (boxes : List BoundingBox)
    (init : (WithTop ℚ × WithTop ℚ) × (WithBot ℚ × WithBot ℚ)) :
    (boxes.foldl envStep init).1.2 =
      (boxes.map BoundingBox.top).foldl (fun (acc : WithTop ℚ) (v : ℚ) => min acc ↑v) init.1.2 := by
  induction boxes generalizing init with
  | nil => rfl
  | cons b bs ih => simp [List.foldl, envStep, ih]

lemma envFold_snd_fst (boxes : List BoundingBox)
    (init : (WithTop ℚ × WithTop ℚ) × (WithBot ℚ × WithBot ℚ)) :
    (boxes.foldl envStep init).2.1 =
      (boxes.map (fun b => b.left + b.width)).foldl
        (fun (acc : WithBot ℚ) (v : ℚ) => max acc ↑v) init.2.1 := by
  induction boxes generalizing init with
  | nil => rfl
  | cons b bs ih => simp [List.foldl, envStep, ih]

lemma envFold_snd_snd (boxes : List BoundingBox)
    (init : (WithTop ℚ × WithTop ℚ) × (WithBot ℚ × WithBot ℚ)) :
    (boxes.foldl envStep init).2.2 =
      (boxes.map (fun b => b.top + b.height)).foldl
        (fun (acc : WithBot ℚ) (v : ℚ) => max acc ↑v) init.2.2 := by
  induction boxes generalizing init with
  | nil => rfl
  | cons b bs ih => simp [List.foldl, envStep, ih]

/-- Claim C1: on a non-empty list of boxes, the envelope's `top_left` is the
coordinate-wise minimum of the box origins `(left, top)` and `bottom_right`
is the coordinate-wise maximum of the box corners
`(left + width, top + height)`: each coordinate is attained by some box and
bounds all boxes. -/
theorem C1_envelope_minmax (boxes : List BoundingBox) (hne : boxes ≠ []) :
    ∃ x0 y0 x1 y1 : ℚ,
      detect_labels_and_coordinates boxes = ((↑x0, ↑y0), (↑x1, ↑y1)) ∧
      (x0 ∈ boxes.map BoundingBox.left ∧
        ∀ v ∈ boxes.map BoundingBox.left, x0 ≤ v) ∧
      (y0 ∈ boxes.map BoundingBox.top ∧
        ∀ v ∈ boxes.map BoundingBox.top, y0 ≤ v) ∧
      (x1 ∈ boxes.map (fun b => b.left + b.width) ∧
        ∀ v ∈ boxes.map (fun b => b.left + b.width), v ≤ x1) ∧
      (y1 ∈ boxes.map (fun b => b.top + b.height) ∧
        ∀ v ∈ boxes.map (fun b => b.top + b.height), v ≤ y1) := by
  obtain ⟨b, bs, rfl⟩ := List.exists_cons_of_ne_nil hne
  obtain ⟨x0, hx0, hx0mem, hx0all⟩ :=
    foldl_min_from_top b.left (bs.map BoundingBox.left)
  obtain ⟨y0, hy0, hy0mem, hy0all⟩ :=
    foldl_min_from_top b.top (bs.map BoundingBox.top)
  obtain ⟨x1, hx1, hx1mem, hx1all⟩ :=
    foldl_max_from_bot (b.left + b.width) (bs.map (fun b => b.left + b.width))
  obtain ⟨y1, hy1, hy1mem, hy1all⟩ :=
    foldl_max_from_bot (b.top + b.height) (bs.map (fun b => b.top + b.height))
  have e11 : (detect_labels_and_coordinates (b :: bs)).1.1 = ↑x0 := by
    rw [detect_labels_and_coordinates, envFold_fst_fst]
    simpa using hx0
  have e12 : (detect_labels_and_coordinates (b :: bs)).1.2 = ↑y0 := by
    rw [detect_labels_and_coordinates, envFold_fst_snd]
    simpa using hy0
  have e21 : (detect_labels_and_coordinates (b :: bs)).2.1 = ↑x1 := by
    rw [detect_labels_and_coordinates, envFold_snd_fst]
    simpa using hx1
  have e22 : (detect_labels_and_coordinates (b :: bs)).2.2 = ↑y1 := by
    rw [detect_labels_and_coordinates, envFold_snd_snd]
    simpa using hy1
  refine ⟨x0, y0, x1, y1, ?_, ⟨?_, ?_⟩, ⟨?_, ?_⟩, ⟨?_, ?_⟩, ⟨?_, ?_⟩⟩
  · have : detect_labels_and_coordinates (b :: bs) =
        (((detect_labels_and_coordinates (b :: bs)).1.1,
          (detect_labels_and_coordinates (b :: bs)).1.2),
         ((detect_labels_and_coordinates (b :: bs)).2.1,
          (detect_labels_and_coordinates (b :: bs)).2.2)) := rfl
    rw [this, e11, e12, e21, e22]
  · simpa using hx0mem
  · intro v hv
    exact hx0all v (by simpa using hv)
  · simpa using hy0mem
  · intro v hv
    exact hy0all v (by simpa using hv)
  · simpa using hx1mem
  · intro v hv
    exact hx1all v (by simpa using hv)
  · simpa using hy1mem
  · intro v hv
    exact hy1all v (by simpa using hv)

/-- Witness for C1 on the spec's example pair of boxes. -/
theorem C1_envelope_minmax_witness :
    ([⟨1/10, 1/10, 2/10, 1/10⟩, ⟨3/10, 5/100, 1/10, 2/10⟩] :
      List BoundingBox) ≠ [] ∧
    (∃ x0 y0 x1 y1 : ℚ,
      detect_labels_and_coordinates
          [⟨1/10, 1/10, 2/10, 1/10⟩, ⟨3/10, 5/100, 1/10, 2/10⟩] =
        ((↑x0, ↑y0), (↑x1, ↑y1)) ∧
      (x0 ∈ ([⟨1/10, 1/10, 2/10, 1/10⟩, ⟨3/10, 5/100, 1/10, 2/10⟩] :
          List BoundingBox).map BoundingBox.left ∧
        ∀ v ∈ ([⟨1/10, 1/10, 2/10, 1/10⟩, ⟨3/10, 5/100, 1/10, 2/10⟩] :
          List BoundingBox).map BoundingBox.left, x0 ≤ v) ∧
      (y0 ∈ ([⟨1/10, 1/10, 2/10, 1/10⟩, ⟨3/10, 5/100, 1/10, 2/10⟩] :
          List BoundingBox).map BoundingBox.top ∧
        ∀ v ∈ ([⟨1/10, 1/10, 2/10, 1/10⟩, ⟨3/10, 5/100, 1/10, 2/10⟩] :
          List BoundingBox).map BoundingBox.top, y0 ≤ v) ∧
      (x1 ∈ ([⟨1/10, 1/10, 2/10, 1/10⟩, ⟨3/10, 5/100, 1/10, 2/10⟩] :
          List BoundingBox).map (fun b => b.left + b.width) ∧
        ∀ v ∈ ([⟨1/10, 1/10, 2/10, 1/10⟩, ⟨3/10, 5/100, 1/10, 2/10⟩] :
          List BoundingBox).map (fun b => b.left + b.width), v ≤ x1) ∧
      (y1 ∈ ([⟨1/10, 1/10, 2/10, 1/10⟩, ⟨3/10, 5/100, 1/10, 2/10⟩] :
          List BoundingBox).map (fun b => b.top + b.height) ∧
        ∀ v ∈ ([⟨1/10, 1/10, 2/10, 1/10⟩, ⟨3/10, 5/100, 1/10, 2/10⟩] :
          List BoundingBox).map (fun b => b.top + b.height), v ≤ y1)) :=
  ⟨by simp,
    C1_envelope_minmax [⟨1/10, 1/10, 2/10, 1/10⟩, ⟨3/10, 5/100, 1/10, 2/10⟩]
      (by simp)⟩

/-- Claim C5: for valid inputs (normalized envelope coordinates in `[0, 1]`
with `top_left ≤ bottom_right` componentwise, and shifts produced by
`_calculate_shifts` from the envelope's pixel dimensions), the rectangle
computed by `crop_image` satisfies `0 ≤ left ≤ right ≤ image_width` and
`0 ≤ top ≤ bottom ≤ image_height`. -/
theorem C5_crop_bounds (W H : ℕ) (hW : 0 < W) (hH : 0 < H) (tl br : ℚ × ℚ)
    (h0 : 0 ≤ tl.1) (h1 : tl.1 ≤ br.1) (h2 : br.1 ≤ 1)
    (h3 : 0 ≤ tl.2) (h4 : tl.2 ≤ br.2) (h5 : br.2 ≤ 1)
    (sh sv : ℚ)
    (hs : calculate_shifts (get_image_dimensions W H tl br).1
        (get_image_dimensions W H tl br).2 = (sh, sv)) :
    0 ≤ (crop_image W H tl br sh sv).left ∧
    (crop_image W H tl br sh sv).left ≤ (crop_image W H tl br sh sv).right ∧
    (crop_image W H tl br sh sv).right ≤ W ∧
    0 ≤ (crop_image W H tl br sh sv).top ∧
    (crop_image W H tl br sh sv).top ≤ (crop_image W H tl br sh sv).bottom ∧
    (crop_image W H tl br sh sv).bottom ≤ H := by
  have hcW : (0 : ℚ) ≤ (W : ℚ) := Nat.cast_nonneg W
  have hcH : (0 : ℚ) ≤ (H : ℚ) := Nat.cast_nonneg H
  have hl0 : (0 : ℚ) ≤ tl.1 * W := mul_nonneg h0 hcW
  have hr0 : (0 : ℚ) ≤ br.1 * W := mul_nonneg (h0.trans h1) hcW
  have ht0 : (0 : ℚ) ≤ tl.2 * H := mul_nonneg h3 hcH
  have hb0 : (0 : ℚ) ≤ br.2 * H := mul_nonneg (h3.trans h4) hcH
  have hlr : intTrunc (tl.1 * W) ≤ intTrunc (br.1 * W) :=
    intTrunc_mono hl0 (mul_le_mul_of_nonneg_right h1 hcW)
  have htb : intTrunc (tl.2 * H) ≤ intTrunc (br.2 * H) :=
    intTrunc_mono ht0 (mul_le_mul_of_nonneg_right h4 hcH)
  have hlrq : (intTrunc (tl.1 * W) : ℚ) ≤ (intTrunc (br.1 * W) : ℚ) := by
    exact_mod_cast hlr
  have htbq : (intTrunc (tl.2 * H) : ℚ) ≤ (intTrunc (br.2 * H) : ℚ) := by
    exact_mod_cast htb
  have hrW : (intTrunc (br.1 * W) : ℚ) ≤ (W : ℚ) := by
    refine (intTrunc_le_self hr0).trans ?_
    calc br.1 * W ≤ 1 * W := mul_le_mul_of_nonneg_right h2 hcW
      _ = (W : ℚ) := one_mul _
  have hbH : (intTrunc (br.2 * H) : ℚ) ≤ (H : ℚ) := by
    refine (intTrunc_le_self hb0).trans ?_
    calc br.2 * H ≤ 1 * H := mul_le_mul_of_nonneg_right h5 hcH
      _ = (H : ℚ) := one_mul _
  have hgid : get_image_dimensions W H tl br =
      (intTrunc (br.1 * W) - intTrunc (tl.1 * W),
       intTrunc (br.2 * H) - intTrunc (tl.2 * H)) := rfl
  rw [hgid] at hs
  rcases lt_trichotomy (intTrunc (br.1 * W) - intTrunc (tl.1 * W))
      (intTrunc (br.2 * H) - intTrunc (tl.2 * H)) with hlt | heq | hgt
  · simp only [calculate_shifts, hlt, if_true, Prod.mk.injEq] at hs
    obtain ⟨hsh, hsv⟩ := hs
    subst hsh
    subst hsv
    have hT0 : (0 : ℤ) ≤
        ⌊((intTrunc (br.2 * H) - intTrunc (tl.2 * H) : ℤ) : ℚ) /
          (ratio.1 : ℚ) * (ratio.2 : ℚ)⌋ := by
      apply Int.floor_nonneg.mpr
      rw [ratio_expr_eq]
      have hd0 : (0 : ℚ) ≤ ((intTrunc (br.2 * H) - intTrunc (tl.2 * H) : ℤ) : ℚ) := by
        push_cast
        linarith
      apply div_nonneg (mul_nonneg hd0 (by norm_num)) (by norm_num)
    have hT0q : (0 : ℚ) ≤
        ((⌊((intTrunc (br.2 * H) - intTrunc (tl.2 * H) : ℤ) : ℚ) /
          (ratio.1 : ℚ) * (ratio.2 : ℚ)⌋ : ℤ) : ℚ) := by
      exact_mod_cast hT0
    apply crop_bounds_of
    · push_cast
      push_cast at hT0q
      linarith
    · rw [crop_new_width]
      push_cast
      push_cast at hT0q
      linarith
    · linarith [htbq.trans hbH]
    · rw [crop_new_height]
      push_cast
      linarith
  · rw [heq] at hs
    simp only [calculate_shifts, lt_self_iff_false, if_false, Prod.mk.injEq] at hs
    obtain ⟨hsh, hsv⟩ := hs
    subst hsh
    subst hsv
    apply crop_bounds_of
    · linarith [hlrq.trans hrW]
    · rw [crop_new_width]
      push_cast
      linarith
    · linarith [htbq.trans hbH]
    · rw [crop_new_height]
      push_cast
      linarith
  · have hnl : ¬ intTrunc (br.1 * W) - intTrunc (tl.1 * W) <
        intTrunc (br.2 * H) - intTrunc (tl.2 * H) := not_lt.mpr hgt.le
    simp only [calculate_shifts, hnl, if_false, hgt, if_true, Prod.mk.injEq] at hs
    obtain ⟨hsh, hsv⟩ := hs
    subst hsh
    subst hsv
    have hT0 : (0 : ℤ) ≤
        ⌊((intTrunc (br.1 * W) - intTrunc (tl.1 * W) : ℤ) : ℚ) /
          (ratio.1 : ℚ) * (ratio.2 : ℚ)⌋ := by
      apply Int.floor_nonneg.mpr
      rw [ratio_expr_eq]
      have hd0 : (0 : ℚ) ≤ ((intTrunc (br.1 * W) - intTrunc (tl.1 * W) : ℤ) : ℚ) := by
        push_cast
        linarith
      apply div_nonneg (mul_nonneg hd0 (by norm_num)) (by norm_num)
    have hT0q : (0 : ℚ) ≤
        ((⌊((intTrunc (br.1 * W) - intTrunc (tl.1 * W) : ℤ) : ℚ) /
          (ratio.1 : ℚ) * (ratio.2 : ℚ)⌋ : ℤ) : ℚ) := by
      exact_mod_cast hT0
    apply crop_bounds_of
    · linarith [hlrq.trans hrW]
    · rw [crop_new_width]
      push_cast
      linarith
    · push_cast
      push_cast at hT0q
      linarith
    · rw [crop_new_height]
      push_cast
      push_cast at hT0q
      linarith

/-- Witness for C5: image 3×3, envelope `(0,0)`–`(1,1)`, shifts `(0, 0)`. -/
theorem C5_crop_bounds_witness :
    calculate_shifts (get_image_dimensions 3 3 (0, 0) (1, 1)).1
        (get_image_dimensions 3 3 (0, 0) (1, 1)).2 = (0, 0) ∧
      (0 ≤ (crop_image 3 3 (0, 0) (1, 1) 0 0).left ∧
      (crop_image 3 3 (0, 0) (1, 1) 0 0).left ≤
        (crop_image 3 3 (0, 0) (1, 1) 0 0).right ∧
      (crop_image 3 3 (0, 0) (1, 1) 0 0).right ≤ 3 ∧
      0 ≤ (crop_image 3 3 (0, 0) (1, 1) 0 0).top ∧
      (crop_image 3 3 (0, 0) (1, 1) 0 0).top ≤
        (crop_image 3 3 (0, 0) (1, 1) 0 0).bottom ∧
      (crop_image 3 3 (0, 0) (1, 1) 0 0).bottom ≤ 3) := by
  have hs : calculate_shifts (get_image_dimensions 3 3 (0, 0) (1, 1)).1
      (get_image_dimensions 3 3 (0, 0) (1, 1)).2 = (0, 0) := by
    norm_num [get_image_dimensions, calculate_shifts, intTrunc]
  exact ⟨hs, C5_crop_bounds 3 3 (by norm_num) (by norm_num) (0, 0) (1, 1)
    (by norm_num) (by norm_num) (by norm_num) (by norm_num) (by norm_num)
    (by norm_num) 0 0 hs⟩

/-- Claim C9: for a normalized coordinate `c ∈ [0, 1]` and a positive image
dimension `d`, the pixel conversion `int(c * d)` used by `crop_image` and
`get_image_dimensions` equals `floor(c * d)`: truncation toward zero agrees
with round-down on non-negative values. -/
theorem C9_conversion_round_down (c : ℚ) (d : ℕ) (h0 : 0 ≤ c) (h1 : c ≤ 1)
    (hd : 0 < d) : intTrunc (c * d) = ⌊c * (d : ℚ)⌋ :=
  intTrunc_of_nonneg (mul_nonneg h0 (by positivity))

/-- Witness for C9 at `c = 1/2`, `d = 3`. -/
theorem C9_conversion_round_down_witness :
    (0 : ℚ) ≤ 1 / 2 ∧ (1 / 2 : ℚ) ≤ 1 ∧ 0 < 3 ∧
      intTrunc (1 / 2 * ((3 : ℕ) : ℚ)) = ⌊(1 / 2 : ℚ) * ((3 : ℕ) : ℚ)⌋ :=
  ⟨by norm_num, by norm_num, by norm_num,
    C9_conversion_round_down (1 / 2) 3 (by norm_num) (by norm_num) (by norm_num)⟩

/-- Claim C10: with the envelope's pixel dimensions `(w, h)` as computed by
`get_image_dimensions`, composing `_calculate_shifts` with the cropper's size
computation gives `new_width = (right - left) + 2 * shift_horizontal
= floor(h * 2 / 3)` exactly when `w < h`, and symmetrically
`new_height = floor(w * 2 / 3)` when `w > h`. -/
theorem C10_new_size_eq_target (W H : ℕ) (tl br : ℚ × ℚ) (w h : ℤ)
    (hdim : get_image_dimensions W H tl br = (w, h)) (hw : 0 < w) (hh : 0 < h) :
    (w < h → crop_new_width W tl br (calculate_shifts w h).1 =
      ((⌊(h : ℚ) * 2 / 3⌋ : ℤ) : ℚ)) ∧
    (h < w → crop_new_height H tl br (calculate_shifts w h).2 =
      ((⌊(w : ℚ) * 2 / 3⌋ : ℤ) : ℚ)) := by
  have h1 : intTrunc (br.1 * W) - intTrunc (tl.1 * W) = w := by
    have := congrArg Prod.fst hdim
    simpa [get_image_dimensions] using this
  have h2 : intTrunc (br.2 * H) - intTrunc (tl.2 * H) = h := by
    have := congrArg Prod.snd hdim
    simpa [get_image_dimensions] using this
  constructor
  · intro hlt
    rw [crop_new_width, h1]
    simp only [calculate_shifts, hlt, if_true, ratio_expr_eq]
    ring
  · intro hlt
    have hnl : ¬ w < h := not_lt.mpr hlt.le
    rw [crop_new_height, h2]
    simp only [calculate_shifts, hnl, if_false, hlt, if_true, ratio_expr_eq]
    ring

/-- Witness for C10: image 100×100, envelope `(0,0)`–`(1/2,1)` giving pixel
dimensions `(50, 100)`; the padded width is `floor(100 * 2 / 3) = 66`. -/
theorem C10_new_size_eq_target_witness :
    get_image_dimensions 100 100 (0, 0) (1/2, 1) = (50, 100) ∧
      (0 : ℤ) < 50 ∧ (50 : ℤ) < 100 ∧
      crop_new_width 100 (0, 0) (1/2, 1) ((calculate_shifts 50 100).1) =
        ((⌊(100 : ℚ) * 2 / 3⌋ : ℤ) : ℚ) := by
  have hdim : get_image_dimensions 100 100 (0, 0) (1/2, 1) = (50, 100) := by
    rw [get_image_dimensions]
    norm_num [intTrunc]
  exact ⟨hdim, by norm_num, by norm_num,
    (C10_new_size_eq_target 100 100 (0, 0) (1/2, 1) 50 100 hdim (by norm_num)
      (by norm_num)).1 (by norm_num)⟩
